import Mathlib

/-!
A verification development for the sample-extraction pipeline in
`src/extract.js`: the PCM normalizer (`normalizeToPcm16`), the MP3 block
encoder adapter (`encodeToMp3`), the per-file/per-sample orchestrator
(`processFile`) and the command surface (`main`).

JavaScript typed arrays are modelled explicitly: an `Int8Array` is a view
(buffer of unsigned bytes, byte offset, element length); signed reads and
16-bit stores are modelled with explicit two's-complement conversions.
External collaborators (the module decoder and the LAME encoder) are
modelled as injectable function parameters, as they are outside this
repository.
-/

set_option maxRecDepth 4000

/-- Two's-complement reading of an unsigned byte as a signed 8-bit value
(the value `Int8Array` element access yields in JavaScript). -/
def toSigned8 (b : Nat) : Int :=
  if b < 128 then (b : Int) else (b : Int) - 256

/-- Two's-complement reading of an unsigned 16-bit word as a signed value. -/
def toSigned16 (w : Nat) : Int :=
  if w < 32768 then (w : Int) else (w : Int) - 65536

/-- The effect of storing an integer into an `Int16Array` slot in
JavaScript: wrap modulo 2^16 and reinterpret as signed. -/
def toInt16 (x : Int) : Int :=
  if x % 65536 < 32768 then x % 65536 else x % 65536 - 65536

/-- Read a byte from a buffer modelled as a list of unsigned bytes
(out-of-range reads never occur on well-formed views; 0 is a dummy). -/
def byteAt (l : List Nat) (k : Nat) : Nat :=
  (l.get? k).getD 0

/-- A JavaScript `Int8Array`: a view of `length` bytes into `buffer`
starting at `byteOffset`. -/
structure Int8Arr where
  buffer : List Nat
  byteOffset : Nat
  length : Nat
deriving DecidableEq

/-- Well-formedness of an `Int8Array` view: the view lies inside the
buffer and the buffer holds bytes. -/
def Int8Arr.wf (a : Int8Arr) : Prop :=
  a.byteOffset + a.length ≤ a.buffer.length ∧ ∀ b ∈ a.buffer, b < 256

instance (a : Int8Arr) : Decidable a.wf := by
  unfold Int8Arr.wf; infer_instance

/-- Element access `sampleData[j]` on an `Int8Array`: a signed byte. -/
def Int8Arr.get (a : Int8Arr) (j : Nat) : Int :=
  toSigned8 (byteAt a.buffer (a.byteOffset + j))

/-- Little-endian signed 16-bit read at byte position `off` of a buffer,
as performed by an `Int16Array` view on the same buffer. -/
def readInt16LE (buf : List Nat) (off : Nat) : Int :=
  toSigned16 (byteAt buf off + 256 * byteAt buf (off + 1))

/-- The dynamic type of `sampleInfo.data` as `normalizeToPcm16` inspects
it: an `Int16Array`, an `Int8Array`, or some other value. -/
inductive SampleData
  | int16 (vals : List Int)
  | int8 (arr : Int8Arr)
  | other
deriving DecidableEq

/-- One raw sample record from `xmp.getModuleData().samples[i]`:
`name`, `len` (frame count), `flg` (bit flags), `data` (possibly absent). -/
structure SampleInfo where
  name : String
  len : Int
  flg : Nat
  data : Option SampleData
deriving DecidableEq

/-- libxmp flag: the sample is stored 16-bit (`XMP_SAMPLE_16BIT = 4`). -/
def XMP_SAMPLE_16BIT : Nat := 4

/-- The errors `normalizeToPcm16` can raise: the two explicit `throw new
Error(...)` cases, and the `RangeError` the `Int16Array` constructor
raises on a misaligned byte offset or an out-of-bounds view. -/
inductive NormError
  | unknown16Bit
  | unknown8Bit
  | rangeError
deriving DecidableEq

/-- Model of `normalizeToPcm16` (src/extract.js lines 26-51).

16-bit flag set: pass an `Int16Array` through unchanged; reinterpret an
`Int8Array` as `new Int16Array(data.buffer, data.byteOffset,
data.length / 2)` — in JavaScript the fractional length is truncated by
ToIndex, and the constructor throws `RangeError` only for a misaligned
offset or a view exceeding the buffer; otherwise throw.
16-bit flag clear: widen each signed byte with `<< 8` stored into an
`Int16Array` slot; throw on anything that is not an `Int8Array`. -/
def normalizeToPcm16 (s : SampleInfo) : Except NormError (List Int) :=
  if s.flg &&& XMP_SAMPLE_16BIT ≠ 0 then
    match s.data with
    | some (SampleData.int16 vals) => Except.ok vals
    | some (SampleData.int8 a) =>
        if a.byteOffset % 2 ≠ 0 then Except.error NormError.rangeError
        else if a.buffer.length < a.byteOffset + 2 * (a.length / 2) then
          Except.error NormError.rangeError
        else
          Except.ok ((List.range (a.length / 2)).map fun i =>
            readInt16LE a.buffer (a.byteOffset + 2 * i))
    | _ => Except.error NormError.unknown16Bit
  else
    match s.data with
    | some (SampleData.int8 a) =>
        Except.ok ((List.range a.length).map fun j => toInt16 (a.get j * 256))
    | _ => Except.error NormError.unknown8Bit

/-- The number of frames actually stored in a record's data buffer, under
the record's declared bit depth. -/
def expectedFrames (s : SampleInfo) : Nat :=
  match s.data with
  | some (SampleData.int16 vals) => vals.length
  | some (SampleData.int8 a) =>
      if s.flg &&& XMP_SAMPLE_16BIT ≠ 0 then a.length / 2 else a.length
  | _ => 0

def c1arr : Int8Arr := ⟨[128, 0, 255, 127], 0, 4⟩

def c1sample : SampleInfo := ⟨"w", 4, 0, some (SampleData.int8 c1arr)⟩

def c3arr : Int8Arr := ⟨[1, 2, 3], 0, 3⟩

def c3sample : SampleInfo := ⟨"x", 1, 4, some (SampleData.int8 c3arr)⟩

def c4sample : SampleInfo := ⟨"y", 5, 0, some (SampleData.int8 ⟨[1, 2, 3], 0, 3⟩)⟩

/-- An external LAME block encoder (`lamejs.Mp3Encoder`), modelled as an
abstract stateful collaborator: `encodeBuffer` consumes a PCM block and
yields the successor state and an output chunk; `flush` yields the
trailing buffered output. -/
structure Mp3Encoder (σ : Type) where
  encodeBuffer : σ → List Int → σ × List Nat
  flush : σ → List Nat

/-- LAME's recommended block size (`MP3_BLOCK_SIZE = 1152`). -/
def MP3_BLOCK_SIZE : Nat := 1152

/-- The encode loop of `encodeToMp3` (src/extract.js lines 64-71): step
through the PCM in strides of `MP3_BLOCK_SIZE`, feeding each
`pcm16.subarray(k, k + MP3_BLOCK_SIZE)` to the encoder and appending each
non-empty returned chunk to the accumulator. `fuel` is an artifact that
makes the recursion structural; the loop is always entered with
`fuel = pcm.length`, which the loop never exhausts. -/
def encodeLoopF {σ : Type} (E : Mp3Encoder σ) :
    Nat → σ → List Int → List (List Nat) → σ × List (List Nat)
  | _, s, [], acc => (s, acc)
  | 0, s, _ :: _, acc => (s, acc)
  | fuel + 1, s, x :: xs, acc =>
      encodeLoopF E fuel (E.encodeBuffer s ((x :: xs).take MP3_BLOCK_SIZE)).1
        ((x :: xs).drop MP3_BLOCK_SIZE)
        (if 0 < (E.encodeBuffer s ((x :: xs).take MP3_BLOCK_SIZE)).2.length
         then acc ++ [(E.encodeBuffer s ((x :: xs).take MP3_BLOCK_SIZE)).2]
         else acc)

/-- Model of `encodeToMp3` (src/extract.js lines 59-80): run the block
loop over the PCM, call `flush` once, append its output if non-empty,
and concatenate all accumulated chunks into one byte buffer. -/
def encodeToMp3 {σ : Type} (E : Mp3Encoder σ) (s0 : σ) (pcm : List Int) : List Nat :=
  (if 0 < (E.flush (encodeLoopF E pcm.length s0 pcm []).1).length
   then (encodeLoopF E pcm.length s0 pcm []).2
        ++ [E.flush (encodeLoopF E pcm.length s0 pcm []).1]
   else (encodeLoopF E pcm.length s0 pcm []).2).flatten

/-- Spec-side (§4.2): partition a PCM sequence into consecutive,
non-overlapping blocks of exactly `MP3_BLOCK_SIZE` frames, the final
block possibly shorter (`fuel` artifact as in `encodeLoopF`). -/
def chunksFuel : Nat → List Int → List (List Int)
  | _, [] => []
  | 0, _ :: _ => []
  | fuel + 1, x :: xs =>
      (x :: xs).take MP3_BLOCK_SIZE :: chunksFuel fuel ((x :: xs).drop MP3_BLOCK_SIZE)

/-- Spec-side block partition of a PCM sequence. -/
def chunksOf1152 (l : List Int) : List (List Int) := chunksFuel l.length l

/-- Spec-side (§4.2): feed the blocks to the encoder in order, collecting
every returned chunk in order together with the final encoder state. -/
def feedBlocks {σ : Type} (E : Mp3Encoder σ) : σ → List (List Int) → σ × List (List Nat)
  | s, [] => (s, [])
  | s, b :: bs =>
      ((feedBlocks E (E.encodeBuffer s b).1 bs).1,
       (E.encodeBuffer s b).2 :: (feedBlocks E (E.encodeBuffer s b).1 bs).2)

/-- Spec-side (§4.2): the artifact is the ordered concatenation of the
non-empty chunks the encoder returned on the blocks, with the flush
output (if non-empty) last and nothing else. -/
def specEncodeToMp3 {σ : Type} (E : Mp3Encoder σ) (s0 : σ) (pcm : List Int) : List Nat :=
  ((feedBlocks E s0 (chunksOf1152 pcm)).2.filter (fun c => decide (0 < c.length))
    ++ (if 0 < (E.flush (feedBlocks E s0 (chunksOf1152 pcm)).1).length
        then [E.flush (feedBlocks E s0 (chunksOf1152 pcm)).1] else [])).flatten

def encW : Mp3Encoder Nat :=
  ⟨fun s b => (s + b.length, [s + 1]), fun s => [s]⟩

/-- JavaScript whitespace, as `String.prototype.trim` and `parseInt` skip
it (the characters relevant to this pipeline). -/
def isWsJS (c : Char) : Bool :=
  c == ' ' || c == '\t' || c == '\n' || c == '\r'

/-- Model of `String.prototype.trim`. -/
def jsTrim (s : String) : String :=
  String.mk (((s.data.dropWhile isWsJS).reverse.dropWhile isWsJS).reverse)

/-- Acceptance of `/[a-z0-9]/i`: ASCII letters and digits. -/
def isAlnumJS (c : Char) : Bool :=
  decide (97 ≤ c.toNat ∧ c.toNat ≤ 122) || decide (65 ≤ c.toNat ∧ c.toNat ≤ 90)
    || decide (48 ≤ c.toNat ∧ c.toNat ≤ 57)

/-- `str.replace(/[^a-z0-9]/gi, '_')`: every non-alphanumeric character
becomes one underscore. -/
def sanitize (s : String) : String :=
  String.mk (s.data.map fun c => if isAlnumJS c then c else '_')

/-- `String(n).padStart(2, '0')`. -/
def pad2 (n : Nat) : String :=
  String.mk (List.replicate (2 - (toString n).length) '0') ++ toString n

/-- `sampleInfo.name.trim() || `Sample i+1`` (src/extract.js line 118). -/
def rawName (i : Nat) (s : SampleInfo) : String :=
  if jsTrim s.name = "" then "Sample " ++ toString (i + 1) else jsTrim s.name

/-- The output file name of sample `i` (line 135). -/
def outFileName (i : Nat) (s : SampleInfo) : String :=
  pad2 (i + 1) ++ "_" ++ sanitize (rawName i s) ++ ".mp3"

/-- `!sampleInfo.data || sampleInfo.data.length === 0` (line 122). -/
def dataEmpty : Option SampleData → Bool
  | none => true
  | some (SampleData.int16 vals) => vals.isEmpty
  | some (SampleData.int8 a) => a.length == 0
  | some SampleData.other => false

/-- The skip guard of line 122: `len <= 0 || !data || data.length === 0`. -/
def skipSample (s : SampleInfo) : Bool :=
  decide (s.len ≤ 0) || dataEmpty s.data

/-- The recoverable per-sample errors caught at line 142: a normalization
error, an encoder failure, or a filesystem write failure. -/
inductive SampleError
  | norm (e : NormError)
  | encode
  | write
deriving DecidableEq

/-- The observable result of one iteration of the per-sample loop:
skipped as empty, written with a file name and its bytes, or failed with
the logged sample index and name. -/
inductive SampleOutcome
  | skipped
  | ok (fileName : String) (bytes : List Nat)
  | failed (idx : Nat) (name : String) (e : SampleError)
deriving DecidableEq

/-- One iteration of the per-sample loop of `processFile` (src/extract.js
lines 117-144): guard, normalize, encode, write. The encoder (`enc`,
abstracting `encodeToMp3` together with the external encoder's possible
failure) and the filesystem write (`wr`, `true` = success) are injected. -/
def processSample (enc : List Int → Except Unit (List Nat))
    (wr : String → List Nat → Bool) (dir : String)
    (i : Nat) (s : SampleInfo) : SampleOutcome :=
  if skipSample s then SampleOutcome.skipped
  else
    match normalizeToPcm16 s with
    | Except.error e => SampleOutcome.failed i (rawName i s) (SampleError.norm e)
    | Except.ok pcm =>
        match enc pcm with
        | Except.error _ => SampleOutcome.failed i (rawName i s) SampleError.encode
        | Except.ok bytes =>
            if wr (dir ++ "/" ++ outFileName i s) bytes then
              SampleOutcome.ok (outFileName i s) bytes
            else SampleOutcome.failed i (rawName i s) SampleError.write

/-- The per-sample loop of `processFile`: iterate over the samples with
the running index, the `extractedCount` and the accumulated outcomes. -/
def sampleLoop (enc : List Int → Except Unit (List Nat))
    (wr : String → List Nat → Bool) (dir : String) :
    Nat → List SampleInfo → Nat → List SampleOutcome → Nat × List SampleOutcome
  | _, [], cnt, acc => (cnt, acc)
  | i, s :: rest, cnt, acc =>
      sampleLoop enc wr dir (i + 1) rest
        (match processSample enc wr dir i s with
         | SampleOutcome.ok _ _ => cnt + 1
         | _ => cnt)
        (acc ++ [processSample enc wr dir i s])

/-- The per-sample loop from its start state, as `processFile` enters it:
yields `(extractedCount, outcomes)`. -/
def runSamples (enc : List Int → Except Unit (List Nat))
    (wr : String → List Nat → Bool) (dir : String)
    (samples : List SampleInfo) : Nat × List SampleOutcome :=
  sampleLoop enc wr dir 0 samples 0 []

/-- Spec-side: the outcome of each sample processed independently, in
order, starting at index `i`. -/
def outcomesFrom (enc : List Int → Except Unit (List Nat))
    (wr : String → List Nat → Bool) (dir : String) :
    Nat → List SampleInfo → List SampleOutcome
  | _, [] => []
  | i, s :: rest =>
      processSample enc wr dir i s :: outcomesFrom enc wr dir (i + 1) rest

/-- The number of successful outcomes (the value `extractedCount` takes). -/
def countOk : List SampleOutcome → Nat
  | [] => 0
  | SampleOutcome.ok _ _ :: r => countOk r + 1
  | SampleOutcome.skipped :: r => countOk r
  | SampleOutcome.failed _ _ _ :: r => countOk r

/-- The module structure the external decoder yields (the pipeline reads
only `name` and `samples`). -/
structure ModuleData where
  name : String
  samples : List SampleInfo

/-- The observable result of `processFile` on one file. -/
inductive FileResult
  | decodeError
  | noSamples
  | processed (dir : String) (count : Nat) (outcomes : List SampleOutcome)

/-- `path.basename`: the part after the last slash. -/
def baseName (p : String) : String :=
  String.mk ((p.data.reverse.takeWhile (fun c => c != '/')).reverse)

/-- `path.extname` on a basename's characters: the suffix from the last
dot, unless the dot is absent or is the leading character. -/
def extnameAux (b : List Char) : List Char :=
  let after := b.reverse.takeWhile (fun c => c != '.')
  if after.length = b.length then []
  else if b.length = after.length + 1 then []
  else '.' :: after.reverse

/-- `path.extname`. -/
def extname (p : String) : String :=
  String.mk (extnameAux (baseName p).data)

/-- `.toLowerCase()` on ASCII letters. -/
def lowerJS (s : String) : String :=
  String.mk (s.data.map fun c =>
    if 65 ≤ c.toNat ∧ c.toNat ≤ 90 then Char.ofNat (c.toNat + 32) else c)

/-- The recognized tracker extensions (src/extract.js line 7). -/
def VALID_EXTENSIONS : List String := [".mod", ".xm", ".s3m", ".it"]

/-- `VALID_EXTENSIONS.includes(path.extname(f).toLowerCase())`. -/
def hasValidExt (p : String) : Bool :=
  VALID_EXTENSIONS.contains (lowerJS (extname p))

/-- `path.basename(filePath, path.extname(filePath))`: the basename with
its extension suffix removed (kept whole when the name IS the suffix). -/
def baseNameNoExt (p : String) : String :=
  if (extname p).data ≠ []
      ∧ (extname p).data.length < (baseName p).data.length
      ∧ (baseName p).data.drop ((baseName p).data.length - (extname p).data.length)
          = (extname p).data
  then String.mk ((baseName p).data.take
        ((baseName p).data.length - (extname p).data.length))
  else baseName p

/-- Output subdirectory name (line 111): the sanitized trimmed module
name, or the input file's base name without extension when that
sanitization is empty. -/
def moduleDirName (filePath : String) (md : ModuleData) : String :=
  if sanitize (jsTrim md.name) = "" then baseNameNoExt filePath
  else sanitize (jsTrim md.name)

/-- Model of `processFile` (src/extract.js lines 88-147) with the module
decoder `dec`, the per-sample encoder `enc` and the filesystem write `wr`
injected: a caught decode failure is reported and nothing else happens;
an absent or empty sample list is reported before any directory is made;
otherwise the output subdirectory is created and the per-sample loop
runs over all samples. -/
def processFile (dec : List Nat → Except Unit ModuleData)
    (enc : List Int → Except Unit (List Nat)) (wr : String → List Nat → Bool)
    (outputDir filePath : String) (bytes : List Nat) : FileResult :=
  match dec bytes with
  | Except.error _ => FileResult.decodeError
  | Except.ok md =>
      if md.samples.isEmpty then FileResult.noSamples
      else
        FileResult.processed (outputDir ++ "/" ++ moduleDirName filePath md)
          (runSamples enc wr (outputDir ++ "/" ++ moduleDirName filePath md)
            md.samples).1
          (runSamples enc wr (outputDir ++ "/" ++ moduleDirName filePath md)
            md.samples).2

/-- The subdirectories a `processFile` result created. -/
def dirsOf : FileResult → List String
  | FileResult.processed d _ _ => [d]
  | _ => []

/-- The artifact file (if any) one sample outcome wrote. -/
def sampleFiles : SampleOutcome → List (String × List Nat)
  | SampleOutcome.ok f b => [(f, b)]
  | _ => []

/-- All artifact files a list of outcomes wrote, in order. -/
def filesOfOutcomes (outs : List SampleOutcome) : List (String × List Nat) :=
  (outs.map sampleFiles).flatten

/-- All artifact files a `processFile` result wrote. -/
def filesOf : FileResult → List (String × List Nat)
  | FileResult.processed _ _ outs => filesOfOutcomes outs
  | _ => []

/-- Spec-side: the artifacts of the successful samples, each computed
independently, in order. -/
def okFilesIdx (enc : List Int → Except Unit (List Nat))
    (wr : String → List Nat → Bool) (dir : String) :
    Nat → List SampleInfo → List (String × List Nat)
  | _, [] => []
  | i, s :: rest =>
      sampleFiles (processSample enc wr dir i s)
        ++ okFilesIdx enc wr dir (i + 1) rest

/-- The directory branch of `main` (src/extract.js lines 182-188):
iterate the entries in order, processing exactly those that are regular
files with a recognized extension. -/
def mainBatch (proc : String → FileResult) (isFileSt : String → Bool)
    (entries : List String) : List (String × FileResult) :=
  entries.foldl
    (fun acc f =>
      if isFileSt f && hasValidExt f then acc ++ [(f, proc f)] else acc) []

/-- What `fs.existsSync`/`fs.statSync` classify the input path as. -/
inductive PathKind
  | missing
  | file
  | dir (entries : List String)
  | otherKind

/-- How a run of `main` ends. -/
inductive MainEnd
  | usage
  | notFound
  | ranDir
  | ranSingleFile
  | invalidInput
deriving DecidableEq

/-- JavaScript truthiness of an argument string: `undefined` and the
empty string are falsy. -/
def argPresent : Option String → Bool
  | none => false
  | some s => s != ""

/-- Control flow of `main` (src/extract.js lines 152-197): usage check,
existence check, then the directory / valid single file / invalid input
classification. -/
def mainEnd (inputPath outputDir : Option String) (k : PathKind) : MainEnd :=
  if !(argPresent inputPath) || !(argPresent outputDir) then MainEnd.usage
  else match k with
    | PathKind.missing => MainEnd.notFound
    | PathKind.dir _ => MainEnd.ranDir
    | PathKind.file =>
        if hasValidExt (inputPath.getD "") then MainEnd.ranSingleFile
        else MainEnd.invalidInput
    | PathKind.otherKind => MainEnd.invalidInput

/-- The process exit status of each ending: `process.exit(1)` is called
only for missing arguments (line 160) and a missing input path
(line 165); every other path falls through and `main` returns normally,
so the process exits with status 0. -/
def exitCode : MainEnd → Nat
  | MainEnd.usage => 1
  | MainEnd.notFound => 1
  | MainEnd.ranDir => 0
  | MainEnd.ranSingleFile => 0
  | MainEnd.invalidInput => 0

/-- ASCII decimal digits, as `parseInt` consumes them. -/
def isDigitCh (c : Char) : Bool :=
  decide (48 ≤ c.toNat ∧ c.toNat ≤ 57)

/-- The value of a non-empty leading digit run, or `none` (`NaN`) when
there are no leading digits. -/
def parseDigits (cs : List Char) : Option Int :=
  match cs.takeWhile isDigitCh with
  | [] => none
  | ds => some ((ds.foldl (fun a c => 10 * a + (c.toNat - 48)) 0 : Nat) : Int)

/-- `parseInt(s, 10)`: skip leading whitespace, optional sign, then the
longest digit prefix; `none` models `NaN`. -/
def parseIntJS (s : String) : Option Int :=
  match s.data.dropWhile isWsJS with
  | '-' :: rest => (parseDigits rest).map (fun n => -n)
  | '+' :: rest => parseDigits rest
  | cs => parseDigits cs

/-- `parseInt(process.argv[4] || '22050', 10)` (src/extract.js line 155):
the `'22050'` fallback applies only when the argument is absent or the
empty string (JavaScript falsiness), after which `parseInt` may still
yield `NaN`. -/
def sampleRateArg (arg : Option String) : Option Int :=
  match arg with
  | none => parseIntJS "22050"
  | some s => if s = "" then parseIntJS "22050" else parseIntJS s

def encTriv : List Int → Except Unit (List Nat) := fun _ => Except.ok [7]

def wrTriv : String → List Nat → Bool := fun _ _ => true

def c6sample : SampleInfo := ⟨"a", 0, 0, none⟩

def sBad : SampleInfo := ⟨"bad", 1, 0, some SampleData.other⟩

def proc0 : String → FileResult := fun _ => FileResult.decodeError

def isF0 : String → Bool := fun _ => true

def decFail : List Nat → Except Unit ModuleData := fun _ => Except.error ()

theorem byteAt_lt_of_wf (a : Int8Arr) (hw : a.wf) (k : Nat)
    (hk : k < a.buffer.length) : byteAt a.buffer k < 256 := by
  have hb : byteAt a.buffer k = a.buffer.get ⟨k, hk⟩ := by
    simp [byteAt, List.getElem?_eq_getElem hk]
  rw [hb]
  exact hw.2 _ (a.buffer.get_mem k hk)

theorem toSigned8_bounds (b : Nat) (hb : b < 256) :
    -128 ≤ toSigned8 b ∧ toSigned8 b ≤ 127 := by
  unfold toSigned8
  split <;> omega

theorem toInt16_mul256 (v : Int) (h1 : -128 ≤ v) (h2 : v ≤ 127) :
    toInt16 (v * 256) = v * 256 := by
  unfold toInt16
  split <;> omega

/-- Claim C1: with the 16-bit flag clear and signed-byte data,
`normalizeToPcm16` returns one 16-bit frame per input byte, each equal to
the input byte times 256 (the arithmetic left shift by 8), bit-exactly,
including for input bytes -128 and 0. -/
theorem c1_normalize8bit_shifts (s : SampleInfo) (a : Int8Arr)
    (hd : s.data = some (SampleData.int8 a))
    (hf : s.flg &&& XMP_SAMPLE_16BIT = 0) (hw : a.wf) :
    normalizeToPcm16 s
      = Except.ok ((List.range a.length).map fun j => Int8Arr.get a j * 256) := by
  have hpt : ∀ j ∈ List.range a.length,
      toInt16 (Int8Arr.get a j * 256) = Int8Arr.get a j * 256 := by
    intro j hj
    rw [List.mem_range] at hj
    have hk : a.byteOffset + j < a.buffer.length := by
      have := hw.1; omega
    have hb := byteAt_lt_of_wf a hw _ hk
    have hbd := toSigned8_bounds _ hb
    exact toInt16_mul256 _ hbd.1 hbd.2
  simp only [normalizeToPcm16, hd, hf]
  rw [if_neg (by simp)]
  exact congrArg Except.ok (List.map_congr_left hpt)

theorem c1_witness :
    normalizeToPcm16 c1sample = Except.ok [-32768, 0, -256, 32512] := by
  have h := c1_normalize8bit_shifts c1sample c1arr rfl (by decide) (by decide)
  rw [h]
  rfl

/-- Claim C3 counterexample: a record with the 16-bit flag set and an
`Int8Array` of odd byte count 3 does NOT fail: `normalizeToPcm16`
succeeds, returning one frame (the trailing byte is silently dropped),
because the JavaScript `Int16Array` constructor truncates the fractional
length `3 / 2` instead of rejecting it. -/
theorem c3_counterexample :
    c3sample.flg &&& XMP_SAMPLE_16BIT ≠ 0
    ∧ c3arr.length % 2 = 1
    ∧ normalizeToPcm16 c3sample = Except.ok [513] := by
  refine ⟨by decide, by decide, ?_⟩
  rfl

/-- Claim C3 (amended): with the 16-bit flag set and byte-buffer data
whose view offset is even, `normalizeToPcm16` does not reject an odd
byte count; it succeeds and returns `length / 2` little-endian frames,
ignoring a trailing odd byte. (It can only fail with a `RangeError` for
an odd view offset — never with the `UnsupportedFormat` error.) -/
theorem c3_amended_truncates (s : SampleInfo) (a : Int8Arr)
    (hd : s.data = some (SampleData.int8 a))
    (hf : s.flg &&& XMP_SAMPLE_16BIT ≠ 0)
    (ho : a.byteOffset % 2 = 0) (hw : a.wf) :
    normalizeToPcm16 s
      = Except.ok ((List.range (a.length / 2)).map fun i =>
          readInt16LE a.buffer (a.byteOffset + 2 * i)) := by
  simp only [normalizeToPcm16, hd]
  rw [if_pos hf, if_neg (by omega)]
  rw [if_neg (by have h1 := hw.1; omega)]

theorem c3_amended_witness :
    normalizeToPcm16 c3sample = Except.ok [513] := by
  have h := c3_amended_truncates c3sample c3arr rfl (by decide) (by decide) (by decide)
  rw [h]
  rfl

/-- Claim C4 counterexample: `normalizeToPcm16` never consults
`lengthInFrames` (`len`). On a record declaring 5 frames whose 8-bit
data buffer holds only 3 bytes it succeeds with 3 frames, not
`len = 5`. -/
theorem c4_counterexample :
    c4sample.len = 5
    ∧ normalizeToPcm16 c4sample = Except.ok [256, 512, 768]
    ∧ ([256, 512, 768] : List Int).length ≠ 5 := by
  refine ⟨rfl, ?_, by decide⟩
  rfl

/-- Claim C4 (amended): the length of the PCM sequence returned by a
successful `normalizeToPcm16` equals the number of frames stored in the
data buffer (`expectedFrames`: element count for 8-bit bytes and 16-bit
words, half the byte count for a 16-bit raw byte buffer); it equals the
record's `lengthInFrames` exactly when the buffer is consistent with the
declared frame count. -/
theorem c4_amended_length (s : SampleInfo) (pcm : List Int)
    (h : normalizeToPcm16 s = Except.ok pcm) :
    pcm.length = expectedFrames s
    ∧ (s.len = (expectedFrames s : Int) → (pcm.length : Int) = s.len) := by
  have hlen : pcm.length = expectedFrames s := by
    by_cases hf : s.flg &&& XMP_SAMPLE_16BIT ≠ 0
    · cases hdata : s.data with
      | none => simp [normalizeToPcm16, hdata, hf] at h
      | some sd =>
        cases sd with
        | int16 vals =>
            simp [normalizeToPcm16, hdata, hf] at h
            simp [expectedFrames, hdata, hf, ← h]
        | int8 a =>
            simp only [normalizeToPcm16, hdata] at h
            rw [if_pos hf] at h
            by_cases h1 : a.byteOffset % 2 ≠ 0
            · rw [if_pos h1] at h; cases h
            · rw [if_neg h1] at h
              by_cases h2 : a.buffer.length < a.byteOffset + 2 * (a.length / 2)
              · rw [if_pos h2] at h; cases h
              · rw [if_neg h2] at h
                simp only [Except.ok.injEq] at h
                simp [expectedFrames, hdata, hf, ← h]
        | other => simp [normalizeToPcm16, hdata, hf] at h
    · cases hdata : s.data with
      | none => simp [normalizeToPcm16, hdata, hf] at h
      | some sd =>
        cases sd with
        | int16 vals => simp [normalizeToPcm16, hdata, hf] at h
        | int8 a =>
            simp only [normalizeToPcm16, hdata] at h
            rw [if_neg hf] at h
            simp only [Except.ok.injEq] at h
            simp [expectedFrames, hdata, hf, ← h]
        | other => simp [normalizeToPcm16, hdata, hf] at h
  exact ⟨hlen, fun hc => by rw [hlen, hc]⟩

theorem c4_amended_witness :
    (3 : Nat) = expectedFrames c4sample
    ∧ (c4sample.len = (expectedFrames c4sample : Int)
        → ((3 : Nat) : Int) = c4sample.len) := by
  have h := c4_amended_length c4sample [256, 512, 768] (by rfl)
  exact h

/-- Claim C10: `normalizeToPcm16` depends only on the record's data
buffer and the 16-bit bit of its flag field; records differing only in
`name`, `len`, or other flag bits normalize identically. -/
theorem c10_normalize_noninterference (s₁ s₂ : SampleInfo)
    (hd : s₁.data = s₂.data)
    (hf : s₁.flg &&& XMP_SAMPLE_16BIT = s₂.flg &&& XMP_SAMPLE_16BIT) :
    normalizeToPcm16 s₁ = normalizeToPcm16 s₂ := by
  simp only [normalizeToPcm16, hd, hf]

theorem c10_witness :
    normalizeToPcm16 ⟨"alpha", 1, 4, some (SampleData.int8 c3arr)⟩
      = normalizeToPcm16 ⟨"beta", 999, 5, some (SampleData.int8 c3arr)⟩ := by
  exact c10_normalize_noninterference _ _ rfl (by decide)

theorem chunksFuel_irrel : ∀ (f g : Nat) (l : List Int),
    l.length ≤ f → l.length ≤ g → chunksFuel f l = chunksFuel g l := by
  intro f
  induction f with
  | zero =>
      intro g l h1 h2
      cases l with
      | nil => cases g <;> rfl
      | cons x xs => simp at h1
  | succ f ih =>
      intro g l h1 h2
      cases l with
      | nil => cases g <;> rfl
      | cons x xs =>
          cases g with
          | zero => simp at h2
          | succ g =>
              simp only [chunksFuel]
              congr 1
              have hld : ((x :: xs).drop MP3_BLOCK_SIZE).length
                  = (x :: xs).length - MP3_BLOCK_SIZE := by simp
              have hlc : (x :: xs).length = xs.length + 1 := by simp
              have hM : MP3_BLOCK_SIZE = 1152 := rfl
              simp only [List.length_cons] at h1 h2
              apply ih <;> omega

theorem chunksOf1152_cons (x : Int) (xs : List Int) :
    chunksOf1152 (x :: xs)
      = (x :: xs).take MP3_BLOCK_SIZE
        :: chunksOf1152 ((x :: xs).drop MP3_BLOCK_SIZE) := by
  unfold chunksOf1152
  have h1 : (x :: xs).length = xs.length + 1 := by simp
  rw [h1]
  simp only [chunksFuel]
  congr 1
  have hld : ((x :: xs).drop MP3_BLOCK_SIZE).length
      = (x :: xs).length - MP3_BLOCK_SIZE := by simp
  have hM : MP3_BLOCK_SIZE = 1152 := rfl
  apply chunksFuel_irrel <;> omega

theorem encodeLoopF_feedBlocks {σ : Type} (E : Mp3Encoder σ) : ∀ (f : Nat)
    (l : List Int), l.length ≤ f → ∀ (s : σ) (acc : List (List Nat)),
    encodeLoopF E f s l acc
      = ((feedBlocks E s (chunksOf1152 l)).1,
         acc ++ (feedBlocks E s (chunksOf1152 l)).2.filter
                  (fun c => decide (0 < c.length))) := by
  intro f
  induction f with
  | zero =>
      intro l h s acc
      cases l with
      | nil => simp [encodeLoopF, chunksOf1152, chunksFuel, feedBlocks]
      | cons x xs => simp at h
  | succ f ih =>
      intro l h s acc
      cases l with
      | nil => simp [encodeLoopF, chunksOf1152, chunksFuel, feedBlocks]
      | cons x xs =>
          have hld : ((x :: xs).drop MP3_BLOCK_SIZE).length
              = (x :: xs).length - MP3_BLOCK_SIZE := by simp
          have hlc : (x :: xs).length = xs.length + 1 := by simp
          have hM : MP3_BLOCK_SIZE = 1152 := rfl
          simp only [List.length_cons] at h
          simp only [encodeLoopF]
          rw [ih ((x :: xs).drop MP3_BLOCK_SIZE) (by omega)]
          rw [chunksOf1152_cons]
          simp only [feedBlocks]
          rw [List.filter_cons]
          by_cases hr : 0 < (E.encodeBuffer s ((x :: xs).take MP3_BLOCK_SIZE)).2.length
          · simp [hr]
          · simp [hr]

theorem chunksOf1152_join : ∀ (n : Nat) (l : List Int), l.length ≤ n →
    (chunksOf1152 l).flatten = l := by
  intro n
  induction n with
  | zero =>
      intro l h
      cases l with
      | nil => rfl
      | cons x xs => simp at h
  | succ n ih =>
      intro l h
      cases l with
      | nil => rfl
      | cons x xs =>
          rw [chunksOf1152_cons]
          have hld : ((x :: xs).drop MP3_BLOCK_SIZE).length
              = (x :: xs).length - MP3_BLOCK_SIZE := by simp
          have hlc : (x :: xs).length = xs.length + 1 := by simp
          have hM : MP3_BLOCK_SIZE = 1152 := rfl
          simp only [List.length_cons] at h
          rw [List.flatten_cons, ih _ (by omega)]
          exact List.take_append_drop _ _

theorem chunksOf1152_blocks : ∀ (n : Nat) (l : List Int), l.length ≤ n →
    ∀ b ∈ chunksOf1152 l, b ≠ [] ∧ b.length ≤ MP3_BLOCK_SIZE := by
  intro n
  induction n with
  | zero =>
      intro l h b hb
      cases l with
      | nil => simp [chunksOf1152, chunksFuel] at hb
      | cons x xs => simp at h
  | succ n ih =>
      intro l h b hb
      cases l with
      | nil => simp [chunksOf1152, chunksFuel] at hb
      | cons x xs =>
          rw [chunksOf1152_cons] at hb
          have hld : ((x :: xs).drop MP3_BLOCK_SIZE).length
              = (x :: xs).length - MP3_BLOCK_SIZE := by simp
          have hlc : (x :: xs).length = xs.length + 1 := by simp
          have hM : MP3_BLOCK_SIZE = 1152 := rfl
          simp only [List.length_cons] at h
          rcases List.mem_cons.mp hb with hb | hb
          · subst hb
            constructor
            · have hpos : 0 < ((x :: xs).take MP3_BLOCK_SIZE).length := by
                rw [List.length_take]
                omega
              exact List.length_pos.mp hpos
            · exact List.length_take_le _ _
          · exact ih _ (by omega) b hb

theorem chunksOf1152_dropLast : ∀ (n : Nat) (l : List Int), l.length ≤ n →
    ∀ b ∈ (chunksOf1152 l).dropLast, b.length = MP3_BLOCK_SIZE := by
  intro n
  induction n with
  | zero =>
      intro l h b hb
      cases l with
      | nil => simp [chunksOf1152, chunksFuel] at hb
      | cons x xs => simp at h
  | succ n ih =>
      intro l h b hb
      cases l with
      | nil => simp [chunksOf1152, chunksFuel] at hb
      | cons x xs =>
          rw [chunksOf1152_cons] at hb
          have hld : ((x :: xs).drop MP3_BLOCK_SIZE).length
              = (x :: xs).length - MP3_BLOCK_SIZE := by simp
          have hlc : (x :: xs).length = xs.length + 1 := by simp
          have hM : MP3_BLOCK_SIZE = 1152 := rfl
          simp only [List.length_cons] at h
          cases hD : chunksOf1152 ((x :: xs).drop MP3_BLOCK_SIZE) with
          | nil => rw [hD] at hb; simp at hb
          | cons c cs =>
              rw [hD] at hb
              rw [List.dropLast_cons₂] at hb
              have hDne : (x :: xs).drop MP3_BLOCK_SIZE ≠ [] := by
                intro hnil
                rw [hnil] at hD
                simp [chunksOf1152, chunksFuel] at hD
              have hDpos : 0 < ((x :: xs).drop MP3_BLOCK_SIZE).length :=
                List.length_pos.mpr hDne
              rcases List.mem_cons.mp hb with hb | hb
              · subst hb
                rw [List.length_take]
                omega
              · rw [← hD] at hb
                exact ih _ (by omega) b hb

/-- Claim C2: `encodeToMp3` feeds the encoder exactly the consecutive,
non-overlapping blocks of `MP3_BLOCK_SIZE = 1152` frames of its input in
order (the final block possibly shorter), calls `flush` once after the
last block, and returns the ordered concatenation of the non-empty
returned chunks with the flush output last and no other bytes: it equals
the spec-side `specEncodeToMp3` built from the block partition
`chunksOf1152`, whose blocks join back to the input, are non-empty, are
at most 1152 frames, and are exactly 1152 frames except possibly the
last. -/
theorem c2_encode_refines {σ : Type} (E : Mp3Encoder σ) (s0 : σ) (pcm : List Int) :
    encodeToMp3 E s0 pcm = specEncodeToMp3 E s0 pcm
    ∧ (chunksOf1152 pcm).flatten = pcm
    ∧ (∀ b ∈ chunksOf1152 pcm, b ≠ [] ∧ b.length ≤ MP3_BLOCK_SIZE)
    ∧ (∀ b ∈ (chunksOf1152 pcm).dropLast, b.length = MP3_BLOCK_SIZE) := by
  refine ⟨?_, chunksOf1152_join pcm.length pcm (le_refl _),
          chunksOf1152_blocks pcm.length pcm (le_refl _),
          chunksOf1152_dropLast pcm.length pcm (le_refl _)⟩
  unfold encodeToMp3 specEncodeToMp3
  rw [encodeLoopF_feedBlocks E pcm.length pcm (le_refl _) s0 []]
  by_cases hfl : 0 < (E.flush (feedBlocks E s0 (chunksOf1152 pcm)).1).length
  · simp [hfl]
  · simp [hfl]

theorem c2_witness :
    encodeToMp3 encW 0 [3, 4] = specEncodeToMp3 encW 0 [3, 4]
    ∧ ([3, 4] : List Int) ≠ [] ∧ ([3, 4] : List Int).length ≤ MP3_BLOCK_SIZE := by
  obtain ⟨h1, h2, h3, h4⟩ := c2_encode_refines encW 0 [3, 4]
  exact ⟨h1, h3 [3, 4] (by decide)⟩

theorem sampleLoop_eq (enc : List Int → Except Unit (List Nat))
    (wr : String → List Nat → Bool) (dir : String) :
    ∀ (ss : List SampleInfo) (i cnt : Nat) (acc : List SampleOutcome),
    sampleLoop enc wr dir i ss cnt acc
      = (cnt + countOk (outcomesFrom enc wr dir i ss),
         acc ++ outcomesFrom enc wr dir i ss) := by
  intro ss
  induction ss with
  | nil => intro i cnt acc; simp [sampleLoop, outcomesFrom, countOk]
  | cons s rest ih =>
      intro i cnt acc
      simp only [sampleLoop, outcomesFrom]
      rw [ih]
      cases hps : processSample enc wr dir i s <;>
        (simp [countOk]; try omega)

theorem outcomesFrom_length (enc : List Int → Except Unit (List Nat))
    (wr : String → List Nat → Bool) (dir : String) :
    ∀ (ss : List SampleInfo) (i : Nat),
    (outcomesFrom enc wr dir i ss).length = ss.length := by
  intro ss
  induction ss with
  | nil => intro i; rfl
  | cons s rest ih => intro i; simp [outcomesFrom, ih]

theorem outcomesFrom_get? (enc : List Int → Except Unit (List Nat))
    (wr : String → List Nat → Bool) (dir : String) :
    ∀ (ss : List SampleInfo) (i j : Nat),
    (outcomesFrom enc wr dir i ss).get? j
      = (ss.get? j).map (fun s => processSample enc wr dir (i + j) s) := by
  intro ss
  induction ss with
  | nil => intro i j; simp [outcomesFrom]
  | cons s rest ih =>
      intro i j
      cases j with
      | zero => simp [outcomesFrom]
      | succ j =>
          have hadd : i + 1 + j = i + (j + 1) := by omega
          simp only [outcomesFrom, List.get?_cons_succ]
          rw [ih (i + 1) j, hadd]

theorem runSamples_get? (enc : List Int → Except Unit (List Nat))
    (wr : String → List Nat → Bool) (dir : String)
    (samples : List SampleInfo) (j : Nat) (h : j < samples.length) :
    (runSamples enc wr dir samples).2.get? j
      = some (processSample enc wr dir j (samples.get ⟨j, h⟩)) := by
  unfold runSamples
  rw [sampleLoop_eq]
  simp only [List.nil_append]
  rw [outcomesFrom_get?, List.get?_eq_get h]
  simp

theorem countOk_eraseIdx : ∀ (l : List SampleOutcome) (i : Nat),
    l.get? i = some SampleOutcome.skipped →
    countOk (l.eraseIdx i) = countOk l := by
  intro l
  induction l with
  | nil => intro i h; simp at h
  | cons o rest ih =>
      intro i h
      cases i with
      | zero =>
          rw [List.get?_cons_zero] at h
          injection h with h
          subst h
          simp [List.eraseIdx, countOk]
      | succ i =>
          rw [List.get?_cons_succ] at h
          cases o <;> simp [List.eraseIdx, countOk, ih i h]

/-- Claim C6: a sample with `len ≤ 0` or absent/empty data is skipped:
its outcome is `skipped` (not a failure, no artifact), the success
counter is unaffected by it (the counter equals the count with that
outcome removed, and only `ok` outcomes are ever counted), and
processing continues through the remaining samples (one outcome per
sample). -/
theorem c6_empty_sample_skipped (enc : List Int → Except Unit (List Nat))
    (wr : String → List Nat → Bool) (dir : String)
    (samples : List SampleInfo) (i : Nat) (h : i < samples.length)
    (hs : skipSample (samples.get ⟨i, h⟩) = true) :
    (runSamples enc wr dir samples).2.get? i = some SampleOutcome.skipped
    ∧ (runSamples enc wr dir samples).2.length = samples.length
    ∧ (runSamples enc wr dir samples).1
        = countOk ((runSamples enc wr dir samples).2.eraseIdx i)
    ∧ ∀ idx nm e, (runSamples enc wr dir samples).2.get? i
        ≠ some (SampleOutcome.failed idx nm e) := by
  have hskip : processSample enc wr dir i (samples.get ⟨i, h⟩)
      = SampleOutcome.skipped := by
    unfold processSample
    rw [if_pos hs]
  have hget : (runSamples enc wr dir samples).2.get? i
      = some SampleOutcome.skipped := by
    rw [runSamples_get? enc wr dir samples i h, hskip]
  refine ⟨hget, ?_, ?_, ?_⟩
  · unfold runSamples
    rw [sampleLoop_eq]
    simp only [List.nil_append]
    exact outcomesFrom_length enc wr dir samples 0
  · rw [countOk_eraseIdx _ i hget]
    unfold runSamples
    rw [sampleLoop_eq]
    simp
  · intro idx nm e
    rw [hget]
    simp

theorem c6_witness :
    (runSamples encTriv wrTriv "d" [c6sample]).2.get? 0
        = some SampleOutcome.skipped
    ∧ (runSamples encTriv wrTriv "d" [c6sample]).2.length = 1
    ∧ (runSamples encTriv wrTriv "d" [c6sample]).1
        = countOk ((runSamples encTriv wrTriv "d" [c6sample]).2.eraseIdx 0)
    ∧ ∀ idx nm e, (runSamples encTriv wrTriv "d" [c6sample]).2.get? 0
        ≠ some (SampleOutcome.failed idx nm e) := by
  have h := c6_empty_sample_skipped encTriv wrTriv "d" [c6sample] 0
    (by decide) (by decide)
  exact ⟨h.1, h.2.1, h.2.2.1, h.2.2.2⟩

theorem processSample_failed_tag (enc : List Int → Except Unit (List Nat))
    (wr : String → List Nat → Bool) (dir : String) (i : Nat) (s : SampleInfo)
    (idx : Nat) (nm : String) (e : SampleError)
    (h : processSample enc wr dir i s = SampleOutcome.failed idx nm e) :
    idx = i ∧ nm = rawName i s := by
  unfold processSample at h
  split at h
  · exact absurd h (by simp)
  · split at h
    · simp only [SampleOutcome.failed.injEq] at h
      exact ⟨h.1.symm, h.2.1.symm⟩
    · split at h
      · simp only [SampleOutcome.failed.injEq] at h
        exact ⟨h.1.symm, h.2.1.symm⟩
      · split at h
        · exact absurd h (by simp)
        · simp only [SampleOutcome.failed.injEq] at h
          exact ⟨h.1.symm, h.2.1.symm⟩

theorem mainBatch_map (proc : String → FileResult) (isFileSt : String → Bool) :
    ∀ (entries : List String) (acc : List (String × FileResult)),
    entries.foldl
      (fun acc f =>
        if isFileSt f && hasValidExt f then acc ++ [(f, proc f)] else acc) acc
      = acc ++ (entries.filter fun f => isFileSt f && hasValidExt f).map
          (fun f => (f, proc f)) := by
  intro entries
  induction entries with
  | nil => intro acc; simp
  | cons f rest ih =>
      intro acc
      simp only [List.foldl_cons, List.filter_cons]
      by_cases hf : (isFileSt f && hasValidExt f) = true
      · rw [if_pos hf, ih, if_pos hf]
        simp
      · rw [if_neg hf, ih, if_neg hf]

/-- Claim C7: per-item failure isolation. (1) In the per-sample loop the
outcome at each index `j` is exactly the independent processing of
sample `j`, so one sample's normalization, encoding or write failure
cannot abort the loop or change any other sample's outcome. (2) Every
failure outcome carries its own sample index and raw sample name, as
logged. (3) The directory batch is an independent map over the selected
entries, so one file's decode failure cannot prevent the remaining files
from being processed. -/
theorem c7_failure_isolation :
    (∀ (enc : List Int → Except Unit (List Nat)) (wr : String → List Nat → Bool)
        (dir : String) (samples : List SampleInfo) (j : Nat)
        (h : j < samples.length),
        (runSamples enc wr dir samples).2.get? j
          = some (processSample enc wr dir j (samples.get ⟨j, h⟩)))
    ∧ (∀ (enc : List Int → Except Unit (List Nat)) (wr : String → List Nat → Bool)
        (dir : String) (i : Nat) (s : SampleInfo) (idx : Nat) (nm : String)
        (e : SampleError),
        processSample enc wr dir i s = SampleOutcome.failed idx nm e →
          idx = i ∧ nm = rawName i s)
    ∧ (∀ (proc : String → FileResult) (isFileSt : String → Bool)
        (entries : List String),
        mainBatch proc isFileSt entries
          = (entries.filter fun f => isFileSt f && hasValidExt f).map
              (fun f => (f, proc f))) := by
  refine ⟨runSamples_get?, processSample_failed_tag, ?_⟩
  intro proc isFileSt entries
  unfold mainBatch
  rw [mainBatch_map]
  simp

theorem c7_witness :
    (runSamples encTriv wrTriv "d" [sBad]).2.get? 0
        = some (processSample encTriv wrTriv "d" 0 sBad)
    ∧ (0 = 0 ∧ "bad" = rawName 0 sBad)
    ∧ mainBatch proc0 isF0 ["a.mod", "b.txt"]
        = (["a.mod", "b.txt"].filter fun f => isF0 f && hasValidExt f).map
            (fun f => (f, proc0 f)) := by
  obtain ⟨h1, h2, h3⟩ := c7_failure_isolation
  refine ⟨h1 encTriv wrTriv "d" [sBad] 0 (by decide), ?_,
    h3 proc0 isF0 ["a.mod", "b.txt"]⟩
  exact h2 encTriv wrTriv "d" 0 sBad 0 "bad"
    (SampleError.norm NormError.unknown8Bit) (by decide)

theorem filesOfOutcomes_okFilesIdx (enc : List Int → Except Unit (List Nat))
    (wr : String → List Nat → Bool) (dir : String) :
    ∀ (ss : List SampleInfo) (i : Nat),
    filesOfOutcomes (outcomesFrom enc wr dir i ss) = okFilesIdx enc wr dir i ss := by
  intro ss
  induction ss with
  | nil => intro i; rfl
  | cons s rest ih =>
      intro i
      have ih2 := ih (i + 1)
      simp only [filesOfOutcomes] at ih2 ⊢
      simp only [outcomesFrom, okFilesIdx, List.map_cons, List.flatten_cons, ih2]

/-- Claim C8: no observable partial state on failure. (1) The artifact
files the per-sample loop writes are exactly the per-successful-sample
artifacts, independently and in order. (2) A failed sample contributes
no artifact file. (3) A file whose decode fails yields `decodeError`,
creating no output subdirectory and writing no file. -/
theorem c8_no_partial_state :
    (∀ (enc : List Int → Except Unit (List Nat)) (wr : String → List Nat → Bool)
        (dir : String) (samples : List SampleInfo),
        filesOfOutcomes (runSamples enc wr dir samples).2
          = okFilesIdx enc wr dir 0 samples)
    ∧ (∀ (enc : List Int → Except Unit (List Nat)) (wr : String → List Nat → Bool)
        (dir : String) (i : Nat) (s : SampleInfo) (idx : Nat) (nm : String)
        (e : SampleError),
        processSample enc wr dir i s = SampleOutcome.failed idx nm e →
          sampleFiles (processSample enc wr dir i s) = [])
    ∧ (∀ (dec : List Nat → Except Unit ModuleData)
        (enc : List Int → Except Unit (List Nat)) (wr : String → List Nat → Bool)
        (od fp : String) (bytes : List Nat),
        dec bytes = Except.error () →
          processFile dec enc wr od fp bytes = FileResult.decodeError
          ∧ dirsOf (processFile dec enc wr od fp bytes) = []
          ∧ filesOf (processFile dec enc wr od fp bytes) = []) := by
  refine ⟨?_, ?_, ?_⟩
  · intro enc wr dir samples
    unfold runSamples
    rw [sampleLoop_eq]
    simp only [List.nil_append]
    exact filesOfOutcomes_okFilesIdx enc wr dir samples 0
  · intro enc wr dir i s idx nm e h
    rw [h]
    rfl
  · intro dec enc wr od fp bytes h
    have hp : processFile dec enc wr od fp bytes = FileResult.decodeError := by
      unfold processFile
      rw [h]
    exact ⟨hp, by rw [hp]; rfl, by rw [hp]; rfl⟩

theorem c8_witness :
    filesOfOutcomes (runSamples encTriv wrTriv "d" [sBad]).2
        = okFilesIdx encTriv wrTriv "d" 0 [sBad]
    ∧ sampleFiles (processSample encTriv wrTriv "d" 0 sBad) = []
    ∧ processFile decFail encTriv wrTriv "o" "f.mod" [1] = FileResult.decodeError := by
  obtain ⟨h1, h2, h3⟩ := c8_no_partial_state
  have h4 := h3 decFail encTriv wrTriv "o" "f.mod" [1] (by rfl)
  exact ⟨h1 encTriv wrTriv "d" [sBad],
    h2 encTriv wrTriv "d" 0 sBad 0 "bad"
      (SampleError.norm NormError.unknown8Bit) (by decide),
    h4.1⟩

/-- Claim C5 counterexample: with `sample_rate` argument `"abc"` the
rate `parseInt` computes is `NaN` (modelled `none`), not 22050 — the
pipeline does not run with a target rate of 22050 on a non-numeric
string. -/
theorem c5_counterexample :
    sampleRateArg (some "abc") = none
    ∧ sampleRateArg (some "abc") ≠ some 22050 := by
  refine ⟨by decide, by decide⟩

/-- Claim C5 (amended): the 22050 default applies when the argument is
omitted or is the empty string; a non-empty argument with no parseable
leading integer yields `NaN` (`none`) — no fallback to 22050 occurs. -/
theorem c5_amended_default :
    sampleRateArg none = some 22050
    ∧ sampleRateArg (some "") = some 22050
    ∧ (∀ s : String, s ≠ "" → parseIntJS s = none →
        sampleRateArg (some s) = none) := by
  refine ⟨by decide, by decide, ?_⟩
  intro s hne hnan
  show (if s = "" then parseIntJS "22050" else parseIntJS s) = none
  rw [if_neg hne]
  exact hnan

theorem c5_witness :
    "abc" ≠ "" ∧ parseIntJS "abc" = none
    ∧ sampleRateArg (some "abc") = none := by
  refine ⟨by decide, by decide, ?_⟩
  exact c5_amended_default.2.2 "abc" (by decide) (by decide)

/-- Claim C9 counterexample: a sole input file that exists but has an
unrecognized extension (`song.txt`) is classified as invalid input, yet
`main` falls through without calling `process.exit`: the exit status is
0, not non-zero. -/
theorem c9_counterexample :
    mainEnd (some "song.txt") (some "out") PathKind.file = MainEnd.invalidInput
    ∧ exitCode (mainEnd (some "song.txt") (some "out") PathKind.file) = 0 := by
  refine ⟨by decide, by decide⟩

/-- Claim C9 (amended): a non-existent input path (and likewise missing
required arguments) aborts with exit status 1; but a sole input file
with an unrecognized extension is only reported as invalid input and
the run terminates normally with exit status 0. -/
theorem c9_amended_exit (inp out : Option String) :
    exitCode (mainEnd inp out PathKind.missing) = 1
    ∧ (argPresent inp = true → argPresent out = true →
        hasValidExt (inp.getD "") = false →
          mainEnd inp out PathKind.file = MainEnd.invalidInput
          ∧ exitCode (mainEnd inp out PathKind.file) = 0) := by
  constructor
  · cases hin : argPresent inp <;> cases hout : argPresent out <;>
      simp [mainEnd, exitCode, hin, hout]
  · intro h1 h2 h3
    have hm : mainEnd inp out PathKind.file = MainEnd.invalidInput := by
      simp [mainEnd, h1, h2, h3]
    exact ⟨hm, by rw [hm]; rfl⟩

theorem c9_witness :
    argPresent (some "song.txt") = true
    ∧ argPresent (some "out") = true
    ∧ hasValidExt "song.txt" = false
    ∧ mainEnd (some "song.txt") (some "out") PathKind.file = MainEnd.invalidInput
    ∧ exitCode (mainEnd (some "song.txt") (some "out") PathKind.file) = 0
    ∧ exitCode (mainEnd (some "song.txt") (some "out") PathKind.missing) = 1 := by
  have h := c9_amended_exit (some "song.txt") (some "out")
  have h2 := h.2 (by decide) (by decide) (by decide)
  exact ⟨by decide, by decide, by decide, h2.1, h2.2, h.1⟩
